import Mathlib

/-!
Verification of the Bizay variant-matrix scraper (`bizay_scraper/scraper.py`)
against its natural-language specification.

The scraper's pure data transformations are embedded shallowly:

* the JavaScript page-evaluation passes are modelled at the level of the
  candidate `(quantity, price)` pairs they produce, with the numeric-range
  filters translated literally;
* Python floats are idealized as exact rationals (`ℚ`), and Python's
  `round(x, 4)` as round-half-to-even at 4 decimal places on the rational;
* Python dicts that only ever hold string keys are modelled as
  insertion-ordered association lists;
* the Playwright renderer is an external collaborator and is modelled as an
  oracle giving the outcome of each navigation / extraction.
-/

namespace Bizay

/-- A money value as emitted by `_extract_pricing` (an `amount`/`currency`
pair; amounts are exact rationals). -/
structure Money where
  amount : ℚ
  currency : String
  deriving DecidableEq

/-- One raw `quantity`/`total_price` record as produced by the JavaScript
side of `_extract_pricing` (`page.evaluate`, lines 230-295): `quantity` is
`none` for the quantity-less "current price" record. -/
structure RawPricePoint where
  quantity : Option Nat
  total_price : ℚ
  deriving DecidableEq

/-- One fully-built pricing tier as appended by the Python side of
`_extract_pricing` (lines 302-312). -/
structure PriceTier where
  quantity : Option Nat
  unit_price : Money
  total_price : Money
  deriving DecidableEq

/-- Python's `round(x, 4)`: round to 4 decimal places, half to even,
idealized on exact rationals. -/
def round4 (x : ℚ) : ℚ :=
  let y : ℚ := x * 10000
  let f : ℤ := Rat.floor y
  let r : ℤ :=
    if y - (f : ℚ) < 1 / 2 then f
    else if 1 / 2 < y - (f : ℚ) then f + 1
    else if f % 2 = 0 then f else f + 1
  (r : ℚ) / 10000

/-- The admission filter shared by both JavaScript scanning passes
(lines 247 and 271): a candidate `(qty, price)` pair is pushed only when
`qty >= 50 && price > 0 && qty < 100000`. -/
def filterCandidates (cands : List (Nat × ℚ)) : List RawPricePoint :=
  cands.filterMap fun c =>
    if 50 ≤ c.1 ∧ c.1 < 100000 ∧ 0 < c.2 then some ⟨some c.1, c.2⟩ else none

/-- The full candidate list returned by the `page.evaluate` block of
`_extract_pricing`: the row-scanning pass, then the adjacent-table-cell
pass, then the optional quantity-less "current price" record
(lines 238-291).  `rowCands` and `cellCands` are the `(qty, price)` pairs
the two regex passes matched on the rendered page; `mainPrice` is the
amount matched in the single current-price element, when present. -/
def jsPricingData (rowCands cellCands : List (Nat × ℚ)) (mainPrice : Option ℚ) :
    List RawPricePoint :=
  filterCandidates rowCands ++ filterCandidates cellCands ++
    (mainPrice.map fun p => RawPricePoint.mk none p).toList

/-- The tier record built for a retained quantity (lines 301-312):
`unit_price = round(total_price / quantity, 4)`, currency hardcoded
to USD. -/
def mkTier (q : Nat) (t : ℚ) : PriceTier :=
  ⟨some q, ⟨round4 (t / (q : ℚ)), "USD"⟩, ⟨t, "USD"⟩⟩

/-- The Python deduplication loop of `_extract_pricing` (lines 297-312):
keep a record only when its quantity is truthy (non-null and non-zero) and
not yet in `seen`; first occurrence wins. -/
def dedupTiers : List RawPricePoint → List Nat → List PriceTier
  | [], _ => []
  | p :: rest, seen =>
    match p.quantity with
    | some q =>
      if q ≠ 0 ∧ q ∉ seen then mkTier q p.total_price :: dedupTiers rest (q :: seen)
      else dedupTiers rest seen
    | none => dedupTiers rest seen

/-- The sort key of line 314: `x['quantity'] or 0`. -/
def tierKey (t : PriceTier) : Nat := t.quantity.getD 0

/-- `_extract_pricing` (lines 224-319), from the candidate pairs the page
yielded: deduplicate, then sort ascending by the quantity key.  Python's
`list.sort` is a stable ascending sort; `List.insertionSort` with `≤` on
the key is stable, and after deduplication the keys are pairwise distinct,
so the two sorts agree. -/
def extractPricing (rowCands cellCands : List (Nat × ℚ)) (mainPrice : Option ℚ) :
    List PriceTier :=
  List.insertionSort (fun a b => tierKey a ≤ tierKey b)
    (dedupTiers (jsPricingData rowCands cellCands mainPrice) [])

/-- The first raw record carrying quantity `q` in the candidate list. -/
def firstPriceAt (data : List RawPricePoint) (q : Nat) : Option RawPricePoint :=
  data.find? fun p => p.quantity == some q

theorem mem_filterCandidates {cands : List (Nat × ℚ)} {p : RawPricePoint}
    (h : p ∈ filterCandidates cands) :
    ∃ c ∈ cands, p = ⟨some c.1, c.2⟩ ∧ 50 ≤ c.1 ∧ c.1 < 100000 ∧ 0 < c.2 := by
  rcases List.mem_filterMap.1 h with ⟨c, hc, hsome⟩
  by_cases hcond : 50 ≤ c.1 ∧ c.1 < 100000 ∧ 0 < c.2
  · refine ⟨c, hc, ?_, hcond.1, hcond.2.1, hcond.2.2⟩
    simp [hcond] at hsome
    exact hsome.symm
  · simp [hcond] at hsome

theorem mem_dedupTiers_spec :
    ∀ (data : List RawPricePoint) (seen : List Nat) (t : PriceTier),
      t ∈ dedupTiers data seen →
      ∃ q p, t.quantity = some q ∧ q ∉ seen ∧ q ≠ 0 ∧
        firstPriceAt data q = some p ∧ p.quantity = some q ∧
        t = mkTier q p.total_price := by
  intro data
  induction data with
  | nil => intro seen t h; simp [dedupTiers] at h
  | cons p₀ rest ih =>
    intro seen t h
    rcases hq : p₀.quantity with _ | q₀
    · rw [dedupTiers, hq] at h
      rcases ih seen t h with ⟨q, p, h1, h2, h3, h4, h5, h6⟩
      refine ⟨q, p, h1, h2, h3, ?_, h5, h6⟩
      rw [firstPriceAt, List.find?_cons_of_neg, ← firstPriceAt]
      · exact h4
      · simp [hq]
    · rw [dedupTiers, hq] at h
      dsimp only at h
      by_cases hcond : q₀ ≠ 0 ∧ q₀ ∉ seen
      · rw [if_pos hcond] at h
        rcases List.mem_cons.1 h with h | h
        · refine ⟨q₀, p₀, ?_, hcond.2, hcond.1, ?_, hq, h⟩
          · rw [h]; rfl
          · rw [firstPriceAt, List.find?_cons_of_pos]
            simp [hq]
        · rcases ih (q₀ :: seen) t h with ⟨q, p, h1, h2, h3, h4, h5, h6⟩
          have hne : q ≠ q₀ := fun hqq => h2 (hqq ▸ List.mem_cons_self q₀ seen)
          refine ⟨q, p, h1, fun hmem => h2 (List.mem_cons_of_mem _ hmem), h3, ?_, h5, h6⟩
          rw [firstPriceAt, List.find?_cons_of_neg, ← firstPriceAt]
          · exact h4
          · simp only [hq]
            simp only [beq_iff_eq, Option.some.injEq]
            exact fun hqq => hne hqq.symm
      · rw [if_neg hcond] at h
        rcases ih seen t h with ⟨q, p, h1, h2, h3, h4, h5, h6⟩
        have hne : q ≠ q₀ := by
          rcases Decidable.not_and_iff_or_not.1 hcond with h0 | hs
          · intro hqq; exact h3 (hqq.trans (Decidable.not_not.1 h0))
          · intro hqq; exact h2 (hqq ▸ Decidable.not_not.1 hs)
        refine ⟨q, p, h1, h2, h3, ?_, h5, h6⟩
        rw [firstPriceAt, List.find?_cons_of_neg, ← firstPriceAt]
        · exact h4
        · simp only [hq]
          simp only [beq_iff_eq, Option.some.injEq]
          exact fun hqq => hne hqq.symm

theorem nodup_keys_dedupTiers :
    ∀ (data : List RawPricePoint) (seen : List Nat),
      ((dedupTiers data seen).map tierKey).Nodup := by
  intro data
  induction data with
  | nil => intro seen; simp [dedupTiers]
  | cons p₀ rest ih =>
    intro seen
    rcases hq : p₀.quantity with _ | q₀
    · rw [dedupTiers, hq]; exact ih seen
    · rw [dedupTiers, hq]
      dsimp only
      by_cases hcond : q₀ ≠ 0 ∧ q₀ ∉ seen
      · rw [if_pos hcond]
        refine List.nodup_cons.2 ⟨?_, ih (q₀ :: seen)⟩
        intro hmem
        rcases List.mem_map.1 hmem with ⟨t, ht, hkey⟩
        rcases mem_dedupTiers_spec rest (q₀ :: seen) t ht with
          ⟨q, p, h1, h2, _, _, _, h6⟩
        have : tierKey t = q := by rw [h6]; rfl
        have : tierKey (mkTier q₀ p₀.total_price) = q₀ := rfl
        apply h2
        have hq0 : q = q₀ := by
          have h7 : tierKey t = q := by rw [h6]; rfl
          rw [hkey] at h7
          exact h7.symm.trans rfl
        rw [hq0]; exact List.mem_cons_self q₀ seen
      · rw [if_neg hcond]; exact ih seen

/-- Every tier in the extractor output comes from deduplication of the raw
candidate list, with the first-seen total price for its quantity. -/
theorem mem_extractPricing_spec {rowCands cellCands : List (Nat × ℚ)}
    {mainPrice : Option ℚ} {t : PriceTier}
    (h : t ∈ extractPricing rowCands cellCands mainPrice) :
    ∃ q p, t.quantity = some q ∧ q ≠ 0 ∧
      firstPriceAt (jsPricingData rowCands cellCands mainPrice) q = some p ∧
      p.quantity = some q ∧ t = mkTier q p.total_price := by
  have hperm := List.perm_insertionSort (fun a b => tierKey a ≤ tierKey b)
    (dedupTiers (jsPricingData rowCands cellCands mainPrice) [])
  have hmem : t ∈ dedupTiers (jsPricingData rowCands cellCands mainPrice) [] :=
    hperm.mem_iff.1 h
  rcases mem_dedupTiers_spec _ [] t hmem with ⟨q, p, h1, _, h3, h4, h5, h6⟩
  exact ⟨q, p, h1, h3, h4, h5, h6⟩

theorem mem_jsPricingData_quantity {rowCands cellCands : List (Nat × ℚ)}
    {mainPrice : Option ℚ} {p : RawPricePoint} {q : Nat}
    (hp : p ∈ jsPricingData rowCands cellCands mainPrice)
    (hq : p.quantity = some q) :
    50 ≤ q ∧ q < 100000 ∧ 0 < p.total_price := by
  rcases List.mem_append.1 hp with hp | hp
  · rcases List.mem_append.1 hp with hp | hp <;>
    · rcases mem_filterCandidates hp with ⟨c, _, hpc, hc1, hc2, hc3⟩
      subst hpc
      obtain rfl : c.1 = q := Option.some.inj hq
      exact ⟨hc1, hc2, hc3⟩
  · exfalso
    cases mainPrice with
    | none => simp at hp
    | some v =>
      simp at hp
      rw [hp] at hq
      simp at hq

/-- The output tier list for the single row candidate `(100, $50)`. -/
theorem extractPricing_single_100 :
    extractPricing [(100, 50)] [] none = [mkTier 100 50] := rfl

theorem mem_extractPricing_single_100 :
    mkTier 100 50 ∈ extractPricing [(100, 50)] [] none :=
  extractPricing_single_100 ▸ List.mem_singleton.2 rfl

/-- C2: the deduplication keeps at most one tier per quantity, the
first-seen total price wins, and the output is sorted ascending by the
quantity key; on the rows `[(100,$50),(100,$999),(250,$110)]` exactly the
tiers for 100 (amount 50) and 250 (amount 110) result, in that order. -/
theorem C2_dedup_first_seen_sorted
    (rowCands cellCands : List (Nat × ℚ)) (mainPrice : Option ℚ) :
    List.Sorted (fun a b : PriceTier => tierKey a ≤ tierKey b)
        (extractPricing rowCands cellCands mainPrice)
    ∧ ((extractPricing rowCands cellCands mainPrice).map tierKey).Nodup
    ∧ (∀ t ∈ extractPricing rowCands cellCands mainPrice, ∃ q p,
        t.quantity = some q ∧
        firstPriceAt (jsPricingData rowCands cellCands mainPrice) q = some p ∧
        t.total_price.amount = p.total_price)
    ∧ extractPricing [(100, 50), (100, 999), (250, 110)] [] none =
        [mkTier 100 50, mkTier 250 110] := by
  refine ⟨?_, ?_, ?_, rfl⟩
  · haveI : IsTotal PriceTier (fun a b => tierKey a ≤ tierKey b) :=
      ⟨fun a b => Nat.le_total _ _⟩
    haveI : IsTrans PriceTier (fun a b => tierKey a ≤ tierKey b) :=
      ⟨fun _ _ _ hab hbc => le_trans hab hbc⟩
    exact List.sorted_insertionSort _ _
  · have hperm := (List.perm_insertionSort (fun a b => tierKey a ≤ tierKey b)
      (dedupTiers (jsPricingData rowCands cellCands mainPrice) [])).map tierKey
    exact hperm.nodup_iff.2 (nodup_keys_dedupTiers _ [])
  · intro t ht
    rcases mem_extractPricing_spec ht with ⟨q, p, h1, _, h4, _, h6⟩
    exact ⟨q, p, h1, h4, by rw [h6]; rfl⟩

/-- Witness for `C2_dedup_first_seen_sorted` at the single row `(100, $50)`. -/
theorem C2_dedup_first_seen_sorted_witness :
    ∃ q p, (mkTier 100 50).quantity = some q ∧
      firstPriceAt (jsPricingData [(100, 50)] [] none) q = some p ∧
      (mkTier 100 50).total_price.amount = p.total_price :=
  (C2_dedup_first_seen_sorted [(100, 50)] [] none).2.2.1 (mkTier 100 50)
    mem_extractPricing_single_100

/-- C3: a candidate pair is admitted only when its quantity lies in
`[50, 100000)` and its amount is positive; consequently every tier in the
extractor output carries a quantity in that range and a positive total. -/
theorem C3_candidate_range_filter
    (rowCands cellCands : List (Nat × ℚ)) (mainPrice : Option ℚ)
    (t : PriceTier) (ht : t ∈ extractPricing rowCands cellCands mainPrice) :
    ∃ q, t.quantity = some q ∧ 50 ≤ q ∧ q < 100000 ∧
      0 < t.total_price.amount := by
  rcases mem_extractPricing_spec ht with ⟨q, p, h1, _, h4, h5, h6⟩
  have hp : p ∈ jsPricingData rowCands cellCands mainPrice :=
    List.mem_of_find?_eq_some h4
  rcases mem_jsPricingData_quantity hp h5 with ⟨hb1, hb2, hb3⟩
  refine ⟨q, h1, hb1, hb2, ?_⟩
  rw [h6]
  exact hb3

/-- Witness for `C3_candidate_range_filter` at the single row `(100, $50)`. -/
theorem C3_candidate_range_filter_witness :
    ∃ q, (mkTier 100 50).quantity = some q ∧ 50 ≤ q ∧ q < 100000 ∧
      0 < (mkTier 100 50).total_price.amount :=
  C3_candidate_range_filter [(100, 50)] [] none (mkTier 100 50)
    mem_extractPricing_single_100

/-- C5 counterexample: a page exposing only a single current-price element
(the quantity-less candidate `$5`) yields an *empty* tier list — the
quantity-less record is never included in the extractor output, contrary
to the claim that it may appear there (and sort first). -/
theorem C5_counterexample : extractPricing [] [] (some 5) = [] := rfl

/-- C5 as amended: the single current-price element is read as a
quantity-less raw candidate, but the deduplication step keeps only records
with a truthy quantity, so a quantity-less record never reaches the
returned tier list: every returned tier has a non-null quantity (and is
thereby the only kind of record that enters unit-price derivation). -/
theorem C5_null_quantity_filtered :
    (∀ p : ℚ, jsPricingData [] [] (some p) = [⟨none, p⟩])
    ∧ ∀ (rowCands cellCands : List (Nat × ℚ)) (mainPrice : Option ℚ)
        (t : PriceTier), t ∈ extractPricing rowCands cellCands mainPrice →
        t.quantity.isSome = true := by
  refine ⟨fun p => rfl, ?_⟩
  intro rowCands cellCands mainPrice t ht
  rcases mem_extractPricing_spec ht with ⟨q, _, h1, _⟩
  rw [h1]
  rfl

/-- Witness for `C5_null_quantity_filtered`. -/
theorem C5_null_quantity_filtered_witness :
    (mkTier 100 50).quantity.isSome = true :=
  C5_null_quantity_filtered.2 [(100, 50)] [] none (mkTier 100 50)
    mem_extractPricing_single_100

/-- C6: for every retained tier with quantity `q` and total `t`, the unit
price is `t / q` rounded (half to even) to 4 decimal places; concretely,
quantity 250 with total `$110` gives unit price `0.4400`. -/
theorem C6_unit_price_rounding
    (rowCands cellCands : List (Nat × ℚ)) (mainPrice : Option ℚ) :
    (∀ t ∈ extractPricing rowCands cellCands mainPrice, ∀ q : Nat,
      t.quantity = some q →
      t.unit_price.amount = round4 (t.total_price.amount / (q : ℚ)))
    ∧ extractPricing [] [(250, 110)] none = [mkTier 250 110]
    ∧ (mkTier 250 110).unit_price.amount = 0.44 := by
  refine ⟨?_, rfl, ?_⟩
  · intro t ht q hq
    rcases mem_extractPricing_spec ht with ⟨q2, p, h1, _, _, _, h6⟩
    obtain rfl : q2 = q := Option.some.inj ((h1 ▸ hq : some q2 = some q))
    rw [h6]
    rfl
  · show round4 ((110 : ℚ) / ((250 : ℕ) : ℚ)) = 0.44
    have hc : ((250 : ℕ) : ℚ) = 250 := by norm_num
    rw [hc]
    have h : ((110 : ℚ) / 250) * 10000 = 4400 := by norm_num
    simp only [round4, h]
    norm_num [Rat.floor_def']

/-- Witness for `C6_unit_price_rounding` at the tier `(250, $110)`. -/
theorem C6_unit_price_rounding_witness :
    (mkTier 250 110).unit_price.amount =
      round4 ((mkTier 250 110).total_price.amount / ((250 : ℕ) : ℚ)) :=
  (C6_unit_price_rounding [] [(250, 110)] none).1 (mkTier 250 110)
    ((show extractPricing [] [(250, 110)] none = [mkTier 250 110] from rfl) ▸
      List.mem_singleton.2 rfl) 250 rfl

/-- JS `String.prototype.trim`, on the character list of the text. -/
def jsTrim (s : List Char) : List Char :=
  ((s.dropWhile Char.isWhitespace).reverse.dropWhile Char.isWhitespace).reverse

/-- JS `String.prototype.toLowerCase` (ASCII-faithful). -/
def jsToLower (s : List Char) : List Char := s.map Char.toLower

/-- `pat` occurs at the head of `s`. -/
def leadsWith : List Char → List Char → Bool
  | [], _ => true
  | _ :: _, [] => false
  | a :: as, b :: bs => a == b && leadsWith as bs

/-- JS `s.includes(pat)`. -/
def hasSub (pat : List Char) : List Char → Bool
  | [] => pat.isEmpty
  | c :: rest => leadsWith pat (c :: rest) || hasSub pat rest

/-- JS `/^\d+$/.test(s)`: non-empty and all digits. -/
def isNumericId (s : List Char) : Bool := !s.isEmpty && s.all Char.isDigit

/-- One DOM node on an ancestor chain: its `data-id` and `data-value`
attributes (`none` when absent, as `getAttribute` returns null) and its
`id` property (the empty string when the element has no id). -/
structure DomNode where
  dataId : Option (List Char)
  dataValue : Option (List Char)
  elemId : List Char
  deriving DecidableEq

/-- JS `a || b` over an attribute read: null and the empty string are
falsy. -/
def jsOrElse (a : Option (List Char)) (b : List Char) : List Char :=
  match a with
  | some s => if s.isEmpty then b else s
  | none => b

/-- `current.getAttribute('data-id') || current.getAttribute('data-value')
|| current.id` (lines 155-157 of the scraper's evaluate script). -/
def effId (n : DomNode) : List Char := jsOrElse n.dataId (jsOrElse n.dataValue n.elemId)

/-- A leaf element of the rendered page (`el.children.length === 0`): its
`innerText` and the node chain `[el, el.parentElement, ...]` walking
upward (shorter than 3 when an ancestor is null). -/
structure LeafElem where
  text : List Char
  chain : List DomNode
  deriving DecidableEq

/-- A discovered display-text/identifier pair (`{ value: text, id: id }`,
line 159). -/
structure RawVal where
  value : List Char
  id : List Char
  deriving DecidableEq

/-- The ancestor walk of lines 152-163: inspect at most three nodes
starting at the element itself; the first purely numeric identifier found
anchors the value (a falsy — empty — id never tests numeric). -/
def findNumericId (chain : List DomNode) : Option (List Char) :=
  ((chain.take 3).find? fun n => isNumericId (effId n)).map effId

/-- Per-element candidate extraction (lines 144-167): a leaf element with
truthy `innerText` whose trimmed text has length in `(2, 100)` and
case-insensitively contains one of the axis keywords yields the value
`(trimmed text, first numeric ancestor identifier)`, or nothing. -/
def candidateValue (kws : List (List Char)) (e : LeafElem) : Option RawVal :=
  if e.text.isEmpty then none
  else if 2 < (jsTrim e.text).length ∧ (jsTrim e.text).length < 100 ∧
      kws.any (fun kw => hasSub (jsToLower kw) (jsToLower (jsTrim e.text))) then
    (findNumericId e.chain).map fun i => ⟨jsTrim e.text, i⟩
  else none

/-- The hand-curated keyword lists of lines 135-140, per spf parameter. -/
def spfKeywords (spf : String) : List (List Char) :=
  if spf = "spf0" then
    ["Standard".toList, "Die Cut".toList, "Folded".toList, "Business Cards".toList]
  else if spf = "spf1" then
    ["Rectangle".toList, "Square".toList, "Rounded".toList, "Corners".toList]
  else if spf = "spf2" then
    ["x".toList, "in".toList, "inch".toList, "\x22".toList, "\x27".toList]
  else if spf = "spf3" then
    ["pt".toList, "lb".toList, "Paper".toList, "Cardstock".toList, "Gloss".toList, "Matte".toList]
  else []

/-- The `spf_names` table of lines 109-114: `(spf parameter, display name,
stable key)` for each of the four candidate axes, in iteration order. -/
def spfInfos : List (String × String × String) :=
  [("spf0", "Product Type", "product_type"),
   ("spf1", "Shape", "shape"),
   ("spf2", "Size", "size"),
   ("spf3", "Material", "paper_stock")]

/-- One option axis as assembled by `_discover_options`. -/
structure OptionGroup where
  name : String
  key : String
  spf_param : String
  values : List RawVal
  deriving DecidableEq

/-- The Python dedup key of line 175: the string `f"VALUE_ID"`. -/
def rawKey (v : RawVal) : List Char := v.value ++ '_' :: v.id

/-- The dedup loop of lines 173-178: first occurrence of each key wins. -/
def dedupVals : List RawVal → List (List Char) → List RawVal
  | [], _ => []
  | v :: rest, seen =>
    if rawKey v ∈ seen then dedupVals rest seen
    else v :: dedupVals rest (rawKey v :: seen)

/-- The deduplicated value list one spf parameter's scan yields on a page
(lines 127-178). -/
def axisValues (els : List LeafElem) (spf : String) : List RawVal :=
  dedupVals (els.filterMap (candidateValue (spfKeywords spf))) []

/-- The groups a given slice of the `spf_names` table contributes: one
group per spf parameter whose scan found at least one value. -/
def discoveredGroupsOf (els : List LeafElem) (infos : List (String × String × String)) :
    List OptionGroup :=
  infos.filterMap fun info =>
    if (axisValues els info.1).isEmpty then none
    else some ⟨info.2.1, info.2.2, info.1, axisValues els info.1⟩

/-- The pre-fallback result of `_discover_options` (lines 118-184). -/
def discoveredGroups (els : List LeafElem) : List OptionGroup :=
  discoveredGroupsOf els spfInfos

/-- `_get_predefined_options` (lines 192-222), verbatim. -/
def predefinedOptions : List OptionGroup :=
  [⟨"Shape", "shape", "spf1",
    [⟨"Rectangle".toList, "1390".toList⟩,
     ⟨"Rectangle | Rounded Corners".toList, "1399".toList⟩]⟩,
   ⟨"Size", "size", "spf2",
    [⟨"2 x 3.5 in".toList, "1391".toList⟩,
     ⟨"2 x 2 in".toList, "1406".toList⟩]⟩,
   ⟨"Paper stock", "paper_stock", "spf3",
    [⟨"14pt Cardstock Gloss".toList, "1419".toList⟩,
     ⟨"14pt Cardstock Matte".toList, "1420".toList⟩,
     ⟨"14pt Cardstock High Gloss (UV)".toList, "1421".toList⟩]⟩]

/-- `_discover_options` (lines 106-190): the discovered groups, replaced
wholesale by the predefined table when fewer than two axes were found or
fewer than four values in total. -/
def discoverOptions (els : List LeafElem) : List OptionGroup :=
  if (discoveredGroups els).length < 2 ∨
      ((discoveredGroups els).map fun o => o.values.length).sum < 4 then
    predefinedOptions
  else discoveredGroups els

theorem length_discoveredGroupsOf (els : List LeafElem) :
    ∀ infos : List (String × String × String),
      (discoveredGroupsOf els infos).length =
        (infos.map fun i => axisValues els i.1).countP fun vs => !vs.isEmpty := by
  intro infos
  induction infos with
  | nil => rfl
  | cons info rest ih =>
    rcases hA : axisValues els info.1 with _ | ⟨v, vs⟩
    · have step : discoveredGroupsOf els (info :: rest) = discoveredGroupsOf els rest := by
        rw [discoveredGroupsOf, List.filterMap_cons, hA]
        rfl
      rw [step, ih, List.map_cons, List.countP_cons, hA]
      simp
    · have step : discoveredGroupsOf els (info :: rest) =
          OptionGroup.mk info.2.1 info.2.2 info.1 (axisValues els info.1) ::
            discoveredGroupsOf els rest := by
        rw [discoveredGroupsOf, List.filterMap_cons, hA]
        rfl
      rw [step, List.length_cons, ih, List.map_cons, List.countP_cons, hA]
      simp

theorem sum_discoveredGroupsOf (els : List LeafElem) :
    ∀ infos : List (String × String × String),
      ((discoveredGroupsOf els infos).map fun o => o.values.length).sum =
        ((infos.map fun i => axisValues els i.1).map List.length).sum := by
  intro infos
  induction infos with
  | nil => rfl
  | cons info rest ih =>
    rcases hA : axisValues els info.1 with _ | ⟨v, vs⟩
    · have step : discoveredGroupsOf els (info :: rest) = discoveredGroupsOf els rest := by
        rw [discoveredGroupsOf, List.filterMap_cons, hA]
        rfl
      rw [step, ih, List.map_cons, List.map_cons, List.sum_cons, hA]
      simp
    · have step : discoveredGroupsOf els (info :: rest) =
          OptionGroup.mk info.2.1 info.2.2 info.1 (axisValues els info.1) ::
            discoveredGroupsOf els rest := by
        rw [discoveredGroupsOf, List.filterMap_cons, hA]
        rfl
      rw [step, List.map_cons, List.sum_cons, ih, List.map_cons, List.map_cons,
        List.sum_cons, hA]

/-- C1: when discovery finds fewer than two axes with at least one value,
or fewer than four values across all axes, the whole discovery result is
discarded in favour of the predefined table — which has exactly the three
axes Shape (2 values), Size (2 values) and Paper stock (3 values) —
otherwise the discovered axes are returned unchanged. -/
theorem C1_fallback_policy (els : List LeafElem) :
    (discoverOptions els =
      if ((spfInfos.map fun i => axisValues els i.1).countP fun vs => !vs.isEmpty) < 2
          ∨ ((spfInfos.map fun i => axisValues els i.1).map List.length).sum < 4
        then predefinedOptions else discoveredGroups els)
    ∧ predefinedOptions.map (fun o => (o.name, o.values.length)) =
        [("Shape", 2), ("Size", 2), ("Paper stock", 3)] := by
  refine ⟨?_, rfl⟩
  rw [discoverOptions, discoveredGroups, length_discoveredGroupsOf els spfInfos,
    sum_discoveredGroupsOf els spfInfos]

theorem candidateValue_some_numeric {kws : List (List Char)} {e : LeafElem}
    {v : RawVal} (h : candidateValue kws e = some v) :
    isNumericId v.id = true := by
  rw [candidateValue] at h
  split at h
  · exact absurd h (by simp)
  · split at h
    · rcases Option.map_eq_some'.1 h with ⟨i, hfind, hv⟩
      rw [findNumericId] at hfind
      rcases Option.map_eq_some'.1 hfind with ⟨n, hn, hid⟩
      have := List.find?_some hn
      rw [← hv, ← hid]
      exact this
    · exact absurd h (by simp)

theorem mem_dedupVals_sub :
    ∀ (vs : List RawVal) (seen : List (List Char)) (v : RawVal),
      v ∈ dedupVals vs seen → v ∈ vs := by
  intro vs
  induction vs with
  | nil => intro seen v h; simp [dedupVals] at h
  | cons w rest ih =>
    intro seen v h
    by_cases hk : rawKey w ∈ seen
    · rw [dedupVals, if_pos hk] at h
      exact List.mem_cons_of_mem _ (ih seen v h)
    · rw [dedupVals, if_neg hk] at h
      rcases List.mem_cons.1 h with rfl | h
      · exact List.mem_cons_self _ _
      · exact List.mem_cons_of_mem _ (ih _ v h)

theorem dedupVals_spec (vs : List RawVal) :
    ∀ seen : List (List Char),
      (∀ v ∈ dedupVals vs seen, rawKey v ∉ seen) ∧
      (dedupVals vs seen).Pairwise fun a b => rawKey a ≠ rawKey b := by
  induction vs with
  | nil => intro seen; simp [dedupVals]
  | cons v rest ih =>
    intro seen
    by_cases h : rawKey v ∈ seen
    · rw [dedupVals, if_pos h]; exact ih seen
    · rw [dedupVals, if_neg h]
      refine ⟨?_, ?_⟩
      · intro w hw
        rcases List.mem_cons.1 hw with rfl | hw
        · exact h
        · intro hws
          exact (ih (rawKey v :: seen)).1 w hw (List.mem_cons_of_mem _ hws)
      · refine List.pairwise_cons.2 ⟨?_, (ih (rawKey v :: seen)).2⟩
        intro w hw heq
        exact (ih (rawKey v :: seen)).1 w hw (heq ▸ List.mem_cons_self _ _)

theorem mem_discoveredGroupsOf {els : List LeafElem}
    {infos : List (String × String × String)} {g : OptionGroup}
    (h : g ∈ discoveredGroupsOf els infos) :
    ∃ info ∈ infos, g.values = axisValues els info.1 := by
  rcases List.mem_filterMap.1 h with ⟨info, hinfo, hsome⟩
  split at hsome
  · exact absurd hsome (by simp)
  · refine ⟨info, hinfo, ?_⟩
    cases Option.some.inj hsome
    rfl

/-- C7: every identifier discovery emits is a non-empty digit string; a
candidate element whose three-level ancestor walk yields no numeric
identifier contributes no value at all; and the values of any produced
axis are pairwise distinct as (display text, identifier) pairs. -/
theorem C7_numeric_ids_and_dedup (els : List LeafElem) :
    (∀ g ∈ discoverOptions els, ∀ v ∈ g.values, isNumericId v.id = true)
    ∧ (∀ (kws : List (List Char)) (e : LeafElem),
        findNumericId e.chain = none → candidateValue kws e = none)
    ∧ (∀ g ∈ discoverOptions els,
        g.values.Pairwise fun a b => ¬(a.value = b.value ∧ a.id = b.id)) := by
  have hpre1 : ∀ g ∈ predefinedOptions, ∀ v ∈ g.values, isNumericId v.id = true := by
    decide
  have hpre2 : ∀ g ∈ predefinedOptions,
      g.values.Pairwise fun a b => ¬(a.value = b.value ∧ a.id = b.id) := by
    decide
  refine ⟨?_, ?_, ?_⟩
  · intro g hg v hv
    rw [discoverOptions] at hg
    split at hg
    · exact hpre1 g hg v hv
    · rcases mem_discoveredGroupsOf hg with ⟨info, _, hvals⟩
      rw [hvals, axisValues] at hv
      rcases List.mem_filterMap.1 (mem_dedupVals_sub _ _ _ hv) with ⟨e, _, hce⟩
      exact candidateValue_some_numeric hce
  · intro kws e h
    rw [candidateValue]
    split
    · rfl
    · split
      · rw [h]; rfl
      · rfl
  · intro g hg
    rw [discoverOptions] at hg
    split at hg
    · exact hpre2 g hg
    · rcases mem_discoveredGroupsOf hg with ⟨info, _, hvals⟩
      rw [hvals, axisValues]
      refine List.Pairwise.imp ?_ (dedupVals_spec _ _).2
      intro a b hne hab
      exact hne (by rw [rawKey, rawKey, hab.1, hab.2])

/-- Witness for `C7_numeric_ids_and_dedup`: on the empty page the fallback
table's first value has a numeric id, and a leaf element whose chain
carries only the non-numeric id `menu` yields no candidate. -/
theorem C7_numeric_ids_and_dedup_witness :
    isNumericId (RawVal.mk "Rectangle".toList "1390".toList).id = true
    ∧ candidateValue (spfKeywords "spf1")
        (LeafElem.mk "Rectangle".toList [DomNode.mk none none "menu".toList]) = none := by
  refine ⟨?_, ?_⟩
  · exact (C7_numeric_ids_and_dedup []).1
      (OptionGroup.mk "Shape" "shape" "spf1"
        [RawVal.mk "Rectangle".toList "1390".toList,
         RawVal.mk "Rectangle | Rounded Corners".toList "1399".toList])
      (by decide) (RawVal.mk "Rectangle".toList "1390".toList) (by decide)
  · exact (C7_numeric_ids_and_dedup []).2.1 (spfKeywords "spf1")
      (LeafElem.mk "Rectangle".toList [DomNode.mk none none "menu".toList])
      (by decide)

/-- `itertools.product` on lists of values: one output per combination,
the first input list varying slowest. -/
def itertoolsProduct {α : Type} : List (List α) → List (List α)
  | [] => [[]]
  | l :: ls => l.flatMap fun x => (itertoolsProduct ls).map fun c => x :: c

/-- Lines 396-409 of `scrape`: collect the per-axis value lists skipping
axes with no values, then `list(itertools.product(*lists)) if lists
else []`. -/
def allCombinations {α : Type} (ls : List (List α)) : List (List α) :=
  if (ls.filter fun l => !l.isEmpty).isEmpty then []
  else itertoolsProduct (ls.filter fun l => !l.isEmpty)

theorem length_itertoolsProduct {α : Type} :
    ∀ ls : List (List α), (itertoolsProduct ls).length = (ls.map List.length).prod := by
  intro ls
  induction ls with
  | nil => rfl
  | cons l rest ih =>
    have haux : ∀ l2 : List α,
        (l2.flatMap fun x => (itertoolsProduct rest).map fun c => x :: c).length =
          l2.length * (itertoolsProduct rest).length := by
      intro l2
      induction l2 with
      | nil => simp
      | cons a l3 ih2 =>
        rw [List.flatMap_cons, List.length_append, List.length_map, ih2,
          List.length_cons, Nat.succ_mul]
        omega
    rw [itertoolsProduct, haux, List.map_cons, List.prod_cons, ih]

theorem nodup_itertoolsProduct {α : Type} :
    ∀ ls : List (List α), (∀ l ∈ ls, l.Nodup) → (itertoolsProduct ls).Nodup := by
  intro ls
  induction ls with
  | nil => intro _; simp [itertoolsProduct]
  | cons l rest ih =>
    intro h
    rw [itertoolsProduct]
    refine List.nodup_flatMap.2 ⟨?_, ?_⟩
    · intro x _
      exact (ih fun l2 hl2 => h l2 (List.mem_cons_of_mem _ hl2)).map (List.cons_injective)
    · refine (h l (List.mem_cons_self _ _)).imp ?_
      intro a b hab c hc1 hc2
      rcases List.mem_map.1 hc1 with ⟨c1, _, rfl⟩
      rcases List.mem_map.1 hc2 with ⟨c2, _, hcc⟩
      exact hab (List.cons.injEq _ _ _ _ ▸ hcc).1.symm

theorem mem_itertoolsProduct {α : Type} :
    ∀ (ls : List (List α)) (c : List α), c ∈ itertoolsProduct ls →
      List.Forall₂ (fun x l => x ∈ l) c ls := by
  intro ls
  induction ls with
  | nil =>
    intro c hc
    rw [itertoolsProduct, List.mem_singleton] at hc
    subst hc
    exact List.Forall₂.nil
  | cons l rest ih =>
    intro c hc
    rw [itertoolsProduct] at hc
    rcases List.mem_flatMap.1 hc with ⟨x, hx, hcx⟩
    rcases List.mem_map.1 hcx with ⟨c2, hc2, rfl⟩
    exact List.Forall₂.cons hx (ih c2 hc2)

theorem getElem?_itertoolsProduct {α : Type} (ls : List (List α)) :
    ∀ (l : List α) (i j : Nat) (x : α) (c : List α),
      l[i]? = some x → (itertoolsProduct ls)[j]? = some c →
      (itertoolsProduct (l :: ls))[i * (itertoolsProduct ls).length + j]? =
        some (x :: c) := by
  intro l
  induction l with
  | nil => intro i j x c hx _; simp at hx
  | cons a l2 ih =>
    intro i j x c hx hc
    rw [itertoolsProduct, List.flatMap_cons]
    cases i with
    | zero =>
      have hx0 : x = a := by simpa using hx.symm
      have hj : j < (itertoolsProduct ls).length := by
        rcases List.getElem?_eq_some.1 hc with ⟨hlt, _⟩
        exact hlt
      rw [Nat.zero_mul, Nat.zero_add, List.getElem?_append_left]
      · rw [List.getElem?_map, hc, hx0]
        rfl
      · rw [List.length_map]
        exact hj
    | succ i2 =>
      have hx2 : l2[i2]? = some x := by simpa using hx
      have harith : (i2 + 1) * (itertoolsProduct ls).length + j =
          ((itertoolsProduct ls).map fun c => a :: c).length +
            (i2 * (itertoolsProduct ls).length + j) := by
        rw [List.length_map, Nat.succ_mul]
        omega
      rw [harith, List.getElem?_append_right (Nat.le_add_right _ _),
        Nat.add_sub_cancel_left]
      have hrec := ih i2 j x c hx2 hc
      rw [itertoolsProduct] at hrec
      exact hrec

/-- C4: for a non-empty list of axes each holding at least one value, the
enumerator emits exactly the product of the per-axis value counts, each
combination picks one value per axis, combinations are pairwise distinct
when each axis's values are, an axis with zero values is dropped from the
product inputs rather than collapsing it, and the first axis varies
slowest (block structure of the enumeration order). -/
theorem C4_selection_enumeration {α : Type} (ls : List (List α))
    (hne : ls ≠ []) (hval : ∀ l ∈ ls, l ≠ []) :
    (allCombinations ls).length = (ls.map List.length).prod
    ∧ ((∀ l ∈ ls, l.Nodup) → (allCombinations ls).Nodup)
    ∧ (∀ c ∈ allCombinations ls, List.Forall₂ (fun x l => x ∈ l) c ls)
    ∧ (∀ ms : List (List α),
        allCombinations ms = allCombinations (ms.filter fun l => !l.isEmpty))
    ∧ (∀ (m : List α) (ms : List (List α)) (i j : Nat) (x : α) (c : List α),
        m[i]? = some x → (itertoolsProduct ms)[j]? = some c →
        (itertoolsProduct (m :: ms))[i * (itertoolsProduct ms).length + j]? =
          some (x :: c)) := by
  have hfilter : (ls.filter fun l => !l.isEmpty) = ls := by
    refine List.filter_eq_self.2 ?_
    intro a ha
    simpa [List.isEmpty_iff] using hval a ha
  have hcomb : allCombinations ls = itertoolsProduct ls := by
    rw [allCombinations, hfilter, if_neg]
    simpa [List.isEmpty_iff] using hne
  refine ⟨?_, ?_, ?_, ?_, fun m ms => getElem?_itertoolsProduct ms m⟩
  · rw [hcomb]
    exact length_itertoolsProduct ls
  · intro hnd
    rw [hcomb]
    exact nodup_itertoolsProduct ls hnd
  · intro c hc
    rw [hcomb] at hc
    exact mem_itertoolsProduct ls c hc
  · intro ms
    rw [allCombinations, allCombinations, List.filter_filter]
    simp only [Bool.and_self]

/-- Witness for `C4_selection_enumeration` on axes of sizes 2, 2 and 3. -/
theorem C4_selection_enumeration_witness :
    (allCombinations [[0, 1], [10, 11], [20, 21, 22]] : List (List Nat)).length = 12
    ∧ (allCombinations [[0, 1], [10, 11], [20, 21, 22]] : List (List Nat)).Nodup := by
  have h := C4_selection_enumeration ([[0, 1], [10, 11], [20, 21, 22]] : List (List Nat))
    (by decide) (by decide)
  exact ⟨h.1.trans (by decide), h.2.1 (by decide)⟩

/-- One entry of the `values_with_meta` lists built in `scrape`
(lines 398-405): the axis key, the display value, the site identifier and
the axis's spf query parameter (`none` models an absent key, the case the
`if 'spf_param' in val` guard of line 326 protects against). -/
structure SelItem where
  key : String
  value : String
  id : String
  spf_param : Option String
  deriving DecidableEq

/-- Python dict assignment `params[k] = v`: replace in place when the key
exists (keeping its position), append otherwise. -/
def upsertParam (m : List (String × String)) (k v : String) :
    List (String × String) :=
  if m.any fun p => p.1 == k then
    m.map fun p => if p.1 == k then (k, v) else p
  else m ++ [(k, v)]

/-- Dict lookup on the insertion-ordered association list. -/
def getParam (m : List (String × String)) (k : String) : Option String :=
  (m.find? fun p => p.1 == k).map fun p => p.2

/-- The parameter-overlay loop of `_scrape_variant` (lines 324-327):
starting from a copy of the base parameters, write each selected value's
identifier into its axis's spf parameter. -/
def variantParams (base : List (String × String)) :
    List SelItem → List (String × String)
  | [] => base
  | it :: rest =>
    match it.spf_param with
    | some sp => variantParams (upsertParam base sp it.id) rest
    | none => variantParams base rest

/-- A parsed URL as `_build_url_with_params` consumes and produces it:
`urlunparse((scheme, netloc, path, '', urlencode(params), ''))`
(lines 57-60) keeps scheme, netloc and path and replaces the query. -/
structure ParsedUrl where
  scheme : String
  netloc : String
  path : String
  query : List (String × String)
  deriving DecidableEq

/-- `_build_url_with_params` (lines 57-60). -/
def buildUrlWithParams (u : ParsedUrl) (params : List (String × String)) :
    ParsedUrl :=
  ⟨u.scheme, u.netloc, u.path, params⟩

/-- The requoted URL `_scrape_variant` navigates to (lines 324-329). -/
def variantUrl (u : ParsedUrl) (base : List (String × String))
    (sel : List SelItem) : ParsedUrl :=
  buildUrlWithParams u (variantParams base sel)

theorem getParam_cons (x : String × String) (rest : List (String × String))
    (k : String) :
    getParam (x :: rest) k = if x.1 == k then some x.2 else getParam rest k := by
  cases hx : (x.1 == k) with
  | true => simp [getParam, List.find?_cons, hx]
  | false => simp [getParam, List.find?_cons, hx]

theorem getParam_map_replace (k v k2 : String) (hne : k2 ≠ k) :
    ∀ m : List (String × String),
      getParam (m.map fun p => if p.1 == k then (k, v) else p) k2 =
        getParam m k2 := by
  intro m
  induction m with
  | nil => rfl
  | cons p rest ih =>
    rw [List.map_cons]
    cases hp : (p.1 == k) with
    | true =>
      have hp1 : p.1 = k := by simpa using hp
      have hk2P : ¬(k = k2) := fun h => hne h.symm
      rw [if_pos rfl, getParam_cons, getParam_cons, ih]
      simp [hp1, hk2P]
    | false =>
      rw [if_neg (by simp), getParam_cons, getParam_cons, ih]

theorem getParam_replaceAll (k v : String) :
    ∀ m : List (String × String), (m.any fun p => p.1 == k) = true →
      getParam (m.map fun p => if p.1 == k then (k, v) else p) k = some v := by
  intro m
  induction m with
  | nil => intro h; simp at h
  | cons p rest ih =>
    intro h
    rw [List.map_cons]
    cases hp : (p.1 == k) with
    | true =>
      rw [if_pos rfl, getParam_cons]
      simp
    | false =>
      have hrest : (rest.any fun p => p.1 == k) = true := by
        rcases List.any_eq_true.1 h with ⟨q, hq, hqk⟩
        rcases List.mem_cons.1 hq with rfl | hq2
        · rw [hp] at hqk
          exact absurd hqk (by simp)
        · exact List.any_eq_true.2 ⟨q, hq2, hqk⟩
      rw [if_neg (by simp), getParam_cons,
        if_neg (show ¬((p.1 == k) = true) by simp [hp])]
      exact ih hrest

theorem getParam_append_fresh (k v : String) :
    ∀ m : List (String × String), (∀ p ∈ m, (p.1 == k) = false) →
      getParam (m ++ [(k, v)]) k = some v := by
  intro m
  induction m with
  | nil => intro _; simp [getParam_cons]
  | cons p rest ih =>
    intro hn
    rw [List.cons_append, getParam_cons]
    simp [hn p (List.mem_cons_self _ _), ih fun q hq => hn q (List.mem_cons_of_mem _ hq)]

theorem getParam_append_other (k v k2 : String) (hne : k2 ≠ k) :
    ∀ m : List (String × String), getParam (m ++ [(k, v)]) k2 = getParam m k2 := by
  intro m
  induction m with
  | nil =>
    have hk2 : (k == k2) = false := by
      simp only [beq_eq_false_iff_ne]
      exact fun h => hne h.symm
    simp [getParam_cons, hk2, getParam]
  | cons p rest ih =>
    rw [List.cons_append, getParam_cons, getParam_cons, ih]

theorem getParam_upsert_self (k v : String) (m : List (String × String)) :
    getParam (upsertParam m k v) k = some v := by
  rw [upsertParam]
  cases hany : (m.any fun p => p.1 == k) with
  | true =>
    rw [if_pos rfl]
    exact getParam_replaceAll k v m hany
  | false =>
    rw [if_neg (by simp)]
    refine getParam_append_fresh k v m ?_
    intro p hp
    cases hq : (p.1 == k) with
    | false => rfl
    | true =>
      have hcontra : (m.any fun p => p.1 == k) = true :=
        List.any_eq_true.2 ⟨p, hp, hq⟩
      rw [hany] at hcontra
      exact absurd hcontra (by simp)

theorem getParam_upsert_ne (k v k2 : String) (hne : k2 ≠ k)
    (m : List (String × String)) :
    getParam (upsertParam m k v) k2 = getParam m k2 := by
  rw [upsertParam]
  cases hany : (m.any fun p => p.1 == k) with
  | true =>
    rw [if_pos rfl]
    exact getParam_map_replace k v k2 hne m
  | false =>
    rw [if_neg (by simp)]
    exact getParam_append_other k v k2 hne m

theorem getParam_variantParams_notin (k : String) :
    ∀ (sel : List SelItem) (base : List (String × String)),
      (∀ it ∈ sel, it.spf_param ≠ some k) →
      getParam (variantParams base sel) k = getParam base k := by
  intro sel
  induction sel with
  | nil => intro base _; rfl
  | cons it rest ih =>
    intro base h
    cases hsp : it.spf_param with
    | none =>
      rw [variantParams, hsp]
      exact ih base fun w hw => h w (List.mem_cons_of_mem _ hw)
    | some sp =>
      rw [variantParams, hsp]
      dsimp only
      have hksp : k ≠ sp :=
        fun he => h it (List.mem_cons_self _ _) (by rw [hsp, he])
      rw [ih (upsertParam base sp it.id) fun w hw => h w (List.mem_cons_of_mem _ hw)]
      exact getParam_upsert_ne sp it.id k hksp base

theorem getParam_variantParams_mem :
    ∀ (sel : List SelItem) (base : List (String × String)),
      (sel.filterMap fun it => it.spf_param).Nodup →
      ∀ it ∈ sel, ∀ sp, it.spf_param = some sp →
        getParam (variantParams base sel) sp = some it.id := by
  intro sel
  induction sel with
  | nil => intro base _ it hit; cases hit
  | cons it0 rest ih =>
    intro base hnd it hit sp hsp
    rcases List.mem_cons.1 hit with rfl | hit2
    · rw [variantParams, hsp]
      dsimp only
      have hnot : ∀ w ∈ rest, w.spf_param ≠ some sp := by
        intro w hw heq
        have hmem : sp ∈ rest.filterMap fun it => it.spf_param :=
          List.mem_filterMap.2 ⟨w, hw, heq⟩
        rw [List.filterMap_cons, hsp] at hnd
        dsimp only at hnd
        exact (List.nodup_cons.1 hnd).1 hmem
      rw [getParam_variantParams_notin sp rest (upsertParam base sp it.id) hnot]
      exact getParam_upsert_self sp it.id base
    · cases hsp0 : it0.spf_param with
      | none =>
        rw [variantParams, hsp0]
        dsimp only
        refine ih base ?_ it hit2 sp hsp
        rw [List.filterMap_cons, hsp0] at hnd
        dsimp only at hnd
        exact hnd
      | some sp0 =>
        rw [variantParams, hsp0]
        dsimp only
        refine ih (upsertParam base sp0 it0.id) ?_ it hit2 sp hsp
        rw [List.filterMap_cons, hsp0] at hnd
        dsimp only at hnd
        exact (List.nodup_cons.1 hnd).2

/-- C8: the requoted variant URL sets each selected axis's spf query
parameter to the chosen value's identifier and leaves every base query
parameter that is not an axis parameter of the selection — as well as the
scheme, host and path — unchanged. -/
theorem C8_requote_url (u : ParsedUrl) (base : List (String × String))
    (sel : List SelItem) :
    (∀ k : String, (∀ it ∈ sel, it.spf_param ≠ some k) →
      getParam (variantUrl u base sel).query k = getParam base k)
    ∧ ((sel.filterMap fun it => it.spf_param).Nodup →
      ∀ it ∈ sel, ∀ sp : String, it.spf_param = some sp →
        getParam (variantUrl u base sel).query sp = some it.id)
    ∧ (variantUrl u base sel).scheme = u.scheme
    ∧ (variantUrl u base sel).netloc = u.netloc
    ∧ (variantUrl u base sel).path = u.path := by
  refine ⟨?_, ?_, rfl, rfl, rfl⟩
  · intro k hk
    exact getParam_variantParams_notin k sel base hk
  · intro hnd it hit sp hsp
    exact getParam_variantParams_mem sel base hnd it hit sp hsp

/-- Witness for `C8_requote_url` on the reference product's parameters:
the non-axis parameter `id` is preserved and `spf1` is overlaid with the
selected shape's identifier. -/
theorem C8_requote_url_witness :
    getParam (variantUrl
        (ParsedUrl.mk "https" "us.bizay.com" "/en-us/business-cards-2" [])
        [("id", "443495438"), ("spf1", "1390")]
        [SelItem.mk "shape" "Rectangle" "1399" (some "spf1")]).query "id" =
      getParam [("id", "443495438"), ("spf1", "1390")] "id"
    ∧ getParam (variantUrl
        (ParsedUrl.mk "https" "us.bizay.com" "/en-us/business-cards-2" [])
        [("id", "443495438"), ("spf1", "1390")]
        [SelItem.mk "shape" "Rectangle" "1399" (some "spf1")]).query "spf1" =
      some "1399" := by
  have h := C8_requote_url
    (ParsedUrl.mk "https" "us.bizay.com" "/en-us/business-cards-2" [])
    [("id", "443495438"), ("spf1", "1390")]
    [SelItem.mk "shape" "Rectangle" "1399" (some "spf1")]
  exact ⟨h.1 "id" (by decide),
    h.2.1 (by decide) (SelItem.mk "shape" "Rectangle" "1399" (some "spf1"))
      (by decide) "spf1" rfl⟩

/-- One variant record as built by `_scrape_variant` (lines 339-347) and
the base-configuration fallback (lines 430-435): `selection` maps each
axis key to the chosen (display value, identifier) pair. -/
structure Variant where
  sku : Option String
  available : Bool
  selection : List (String × String × String)
  pricing : List PriceTier
  deriving DecidableEq

/-- The `selection` dict projection of lines 342-345. -/
def selectionProj (sel : List SelItem) : List (String × String × String) :=
  sel.map fun it => (it.key, it.value, it.id)

/-- The record `_scrape_variant` returns on success: `available` is true
iff at least one pricing tier was extracted (line 341). -/
def mkVariant (sel : List SelItem) (pricing : List PriceTier) : Variant :=
  ⟨none, !pricing.isEmpty, selectionProj sel, pricing⟩

/-- The per-selection loop of `scrape` (lines 413-424), with the renderer
modelled as an oracle: `outcome i` is `none` when the i-th variant's
navigation/extraction raised (the variant is skipped), and
`some pricing` when `_scrape_variant` returned a record. Only successful
records are appended. -/
def runVariantLoop (outcome : Nat → Option (List PriceTier)) :
    Nat → List (List SelItem) → List Variant
  | _, [] => []
  | i, sel :: rest =>
    match outcome i with
    | some pr => mkVariant sel pr :: runVariantLoop outcome (i + 1) rest
    | none => runVariantLoop outcome (i + 1) rest

/-- The base-configuration fallback variant of lines 430-435: empty
selection map, availability hardcoded to true. -/
def fallbackVariant (basePricing : List PriceTier) : Variant :=
  ⟨none, true, [], basePricing⟩

/-- Lines 413-435 of `scrape`: run the per-selection loop; when it
appended no variants, extract pricing from the currently loaded page and,
if any tiers result, append the single base-configuration variant. -/
def assembleVariants (outcome : Nat → Option (List PriceTier))
    (sels : List (List SelItem)) (basePricing : List PriceTier) : List Variant :=
  if (runVariantLoop outcome 0 sels).isEmpty then
    if basePricing.isEmpty then [] else [fallbackVariant basePricing]
  else runVariantLoop outcome 0 sels

/-- The whole `scrape` control flow around navigation (lines 375-438):
the base page is loaded by a single `page.goto` (line 380) whose failure
propagates out of the `try`/`finally` — `baseOk n` is the outcome the
renderer would give the (n+1)-th base-load attempt, and only attempt 0 is
ever consulted. `none` models the aborted run (no record emitted). -/
def runScrape (baseOk : Nat → Bool) (outcome : Nat → Option (List PriceTier))
    (sels : List (List SelItem)) (basePricing : List PriceTier) :
    Option (List Variant) :=
  if baseOk 0 then some (assembleVariants outcome sels basePricing) else none

theorem mkVariant_mem_runVariantLoop
    (outcome : Nat → Option (List PriceTier)) :
    ∀ (sels : List (List SelItem)) (start j : Nat) (sel : List SelItem)
      (pr : List PriceTier),
      sels[j]? = some sel → outcome (start + j) = some pr →
      mkVariant sel pr ∈ runVariantLoop outcome start sels := by
  intro sels
  induction sels with
  | nil => intro start j sel pr hj _; simp at hj
  | cons s rest ih =>
    intro start j sel pr hj hpr
    cases j with
    | zero =>
      have hs : s = sel := by simpa using hj
      rw [runVariantLoop]
      rw [Nat.add_zero] at hpr
      rw [hpr]
      dsimp only
      rw [hs]
      exact List.mem_cons_self _ _
    | succ j2 =>
      have hj2 : rest[j2]? = some sel := by simpa using hj
      have hpr2 : outcome (start + 1 + j2) = some pr := by
        rw [show start + 1 + j2 = start + (j2 + 1) by omega]
        exact hpr
      have hmem := ih (start + 1) j2 sel pr hj2 hpr2
      rw [runVariantLoop]
      cases houtcome : outcome start with
      | some pr0 =>
        dsimp only
        exact List.mem_cons_of_mem _ hmem
      | none =>
        dsimp only
        exact hmem

theorem runVariantLoop_eq_nil_iff (outcome : Nat → Option (List PriceTier)) :
    ∀ (sels : List (List SelItem)) (start : Nat),
      runVariantLoop outcome start sels = [] ↔
        ∀ j, j < sels.length → outcome (start + j) = none := by
  intro sels
  induction sels with
  | nil => intro start; simp [runVariantLoop]
  | cons s rest ih =>
    intro start
    rw [runVariantLoop]
    cases houtcome : outcome start with
    | some pr =>
      dsimp only
      constructor
      · intro h; cases h
      · intro h
        have := h 0 (by simp)
        rw [Nat.add_zero, houtcome] at this
        cases this
    | none =>
      dsimp only
      rw [ih (start + 1)]
      constructor
      · intro h j hj
        cases j with
        | zero => rw [Nat.add_zero]; exact houtcome
        | succ j2 =>
          rw [show start + (j2 + 1) = start + 1 + j2 by omega]
          exact h j2 (by simpa using hj)
      · intro h j hj
        rw [show start + 1 + j = start + (j + 1) by omega]
        exact h (j + 1) (by simpa using hj)

/-- C9 counterexample: a renderer whose base-page load fails on attempt 0
but would succeed on every later attempt still yields an aborted run —
the claimed bounded retry with backoff at the base-page load step does not
exist: `page.goto` at line 380 is attempted exactly once. -/
theorem C9_counterexample :
    runScrape (fun n => decide (0 < n)) (fun _ => some []) [] [] = none
    ∧ (fun n : Nat => decide (0 < n)) 1 = true := ⟨rfl, rfl⟩

/-- C9 amended: a failed base-page navigation is never retried — the run
aborts on the first failed attempt — while a failed per-variant
navigation is simply skipped: the remaining selections are still
processed, and every other successful variant still appears in the
assembled list. -/
theorem C9_no_base_retry_variant_skip :
    (∀ (baseOk : Nat → Bool) (outcome : Nat → Option (List PriceTier))
        (sels : List (List SelItem)) (bp : List PriceTier),
        baseOk 0 = false → runScrape baseOk outcome sels bp = none)
    ∧ (∀ (outcome : Nat → Option (List PriceTier)) (i0 : Nat)
        (sels : List (List SelItem)) (bp : List PriceTier) (j : Nat)
        (sel : List SelItem) (pr : List PriceTier), j ≠ i0 →
        sels[j]? = some sel → outcome j = some pr →
        mkVariant sel pr ∈
          assembleVariants (Function.update outcome i0 none) sels bp) := by
  constructor
  · intro baseOk outcome sels bp h
    rw [runScrape, h]
    rfl
  · intro outcome i0 sels bp j sel pr hji hj hpr
    have hpr2 : (Function.update outcome i0 none) (0 + j) = some pr := by
      rw [Nat.zero_add, Function.update_noteq hji]
      exact hpr
    have hmem := mkVariant_mem_runVariantLoop (Function.update outcome i0 none)
      sels 0 j sel pr hj hpr2
    rw [assembleVariants, if_neg]
    · exact hmem
    · intro hemp
      exact List.ne_nil_of_mem hmem (List.isEmpty_iff.1 hemp)

/-- Witness for `C9_no_base_retry_variant_skip`: a failed base load aborts
the run; with two selections and the first variant's navigation failing,
the second variant is still captured. -/
theorem C9_no_base_retry_variant_skip_witness :
    runScrape (fun _ => false) (fun _ => none) [] [] = none
    ∧ mkVariant [SelItem.mk "size" "2 x 2 in" "1406" (some "spf2")] [] ∈
        assembleVariants
          (Function.update (fun _ => some ([] : List PriceTier)) 0 none)
          [[SelItem.mk "shape" "Rectangle" "1390" (some "spf1")],
           [SelItem.mk "size" "2 x 2 in" "1406" (some "spf2")]] [] := by
  refine ⟨C9_no_base_retry_variant_skip.1 (fun _ => false) (fun _ => none) [] [] rfl, ?_⟩
  exact C9_no_base_retry_variant_skip.2 (fun _ => some []) 0
    [[SelItem.mk "shape" "Rectangle" "1390" (some "spf1")],
     [SelItem.mk "size" "2 x 2 in" "1406" (some "spf2")]] [] 1
    [SelItem.mk "size" "2 x 2 in" "1406" (some "spf2")] [] (by decide) (by decide) rfl

/-- C10 counterexample: one selection whose scrape succeeds but returns no
pricing, with base-page pricing available — the output is the single
unavailable variant with its (non-empty) selection map, not the
base-configuration fallback variant the claim predicts. -/
theorem C10_counterexample :
    assembleVariants (fun _ => some [])
        [[SelItem.mk "shape" "Rectangle" "1390" (some "spf1")]]
        [mkTier 100 50] =
      [Variant.mk none false [("shape", "Rectangle", "1390")] []] := rfl

/-- C10 amended: the base-configuration fallback fires iff the loop
appended zero variants, i.e. there were zero selections or every
per-variant scrape raised; a scrape that returns an empty pricing list
still appends a variant (available false) and so suppresses the fallback.
When the fallback fires and base pricing is nonempty, exactly one variant
with empty selection map and availability hardcoded true is appended. -/
theorem C10_fallback_only_when_no_variant
    (outcome : Nat → Option (List PriceTier)) (sels : List (List SelItem))
    (bp : List PriceTier) :
    (runVariantLoop outcome 0 sels = [] ↔
      ∀ j, j < sels.length → outcome j = none)
    ∧ (runVariantLoop outcome 0 sels = [] → bp ≠ [] →
        assembleVariants outcome sels bp = [fallbackVariant bp])
    ∧ (runVariantLoop outcome 0 sels = [] → bp = [] →
        assembleVariants outcome sels bp = [])
    ∧ (runVariantLoop outcome 0 sels ≠ [] →
        assembleVariants outcome sels bp = runVariantLoop outcome 0 sels)
    ∧ (fallbackVariant bp).selection = []
    ∧ (fallbackVariant bp).available = true := by
  refine ⟨?_, ?_, ?_, ?_, rfl, rfl⟩
  · have h := runVariantLoop_eq_nil_iff outcome sels 0
    simpa using h
  · intro hnil hbp
    rw [assembleVariants, if_pos (by rw [hnil]; rfl),
      if_neg (by simpa [List.isEmpty_iff] using hbp)]
  · intro hnil hbp
    rw [assembleVariants, if_pos (by rw [hnil]; rfl), if_pos (by rw [hbp]; rfl)]
  · intro hne
    rw [assembleVariants, if_neg fun he => hne (List.isEmpty_iff.1 he)]

/-- Witness for `C10_fallback_only_when_no_variant`: one selection whose
scrape raised and nonempty base pricing produce exactly the fallback
variant. -/
theorem C10_fallback_only_when_no_variant_witness :
    assembleVariants (fun _ => none)
        [[SelItem.mk "shape" "Rectangle" "1390" (some "spf1")]]
        [mkTier 100 50] = [fallbackVariant [mkTier 100 50]] :=
  (C10_fallback_only_when_no_variant (fun _ => none)
    [[SelItem.mk "shape" "Rectangle" "1390" (some "spf1")]]
    [mkTier 100 50]).2.1 rfl (by decide)

end Bizay
